import Mathlib

/-!
Shallow embedding of `src/backend/main.py` (Raspberry Pi Image API).

State of the process:
  * `device_status`  : the in-memory dict mapping device_id to its status
    record, embedded as an association list (a Python dict has unique keys;
    theorems that need key-uniqueness take it as a hypothesis);
  * `image_metadata` : the in-memory list of `ImageMetadata` records;
  * `uploads`        : the `uploads/` directory, embedded as the finite set of
    filenames it contains.  A record's `file_path` is always
    `os.path.join(UPLOAD_DIR, filename)`, so `os.remove(file_path)` is
    erasure of `filename` from this set, `os.listdir(UPLOAD_DIR)` is the set
    itself, and `open(file_path, "wb")` inserts `filename` (overwrite keeps
    the same key).

Timestamps: `datetime.now().strftime("%Y%m%d_%H%M%S")` (second granularity,
used for the filename) and the full-precision `datetime.now()` stored in
`upload_time` are two separate clock reads; we model them as two independent
inputs of each upload, a string `ts` and a natural number `t`.  The strftime
output consists of digits and an underscore only; where a theorem depends on
that, it takes the hypothesis that `ts` contains no hyphen.

Python's `list.sort` is a stable sort; stable sorting by a total key order
determines the output uniquely, so it is embedded as `List.insertionSort`
(Mathlib's insertion sort, which is stable).  `list.remove(x)` and Python
`max(l, key=...)` are embedded below with their exact semantics (`remove`
deletes the first element equal to `x`; `max` returns the first maximum).
Pydantic `BaseModel` equality is field-by-field equality, which is the
derived `DecidableEq` on the record structure.
-/

/-- An `ImageMetadata` record (pydantic model, lines 41-45 of main.py).
`file_path` is omitted: it is always `"uploads/" ++ filename` (line 96), so
`filename` determines it. -/
structure ImageMetadata where
  device_id : String
  filename : String
  upload_time : Nat
deriving DecidableEq

/-- A device's entry in the `device_status` dict (lines 65-68): status string
and last_seen timestamp (seconds, as an integer clock). -/
structure DeviceInfo where
  stat : String
  last_seen : Int
deriving DecidableEq

/-- The whole mutable state of the process: the `uploads/` directory, the
`image_metadata` list and the `device_status` dict. -/
structure St where
  uploads : Finset String
  image_metadata : List ImageMetadata
  device_status : List (String × DeviceInfo)
deriving DecidableEq

/-- Line 95: `filename = f"{device_id}-{timestamp}.png"`. -/
def mkFilename (device_id ts : String) : String :=
  device_id ++ "-" ++ ts ++ ".png"

/-- The sort key of line 115 / 129: `key=lambda x: x.upload_time`, ascending. -/
def byTimeAsc (a b : ImageMetadata) : Prop :=
  a.upload_time ≤ b.upload_time

instance : DecidableRel byTimeAsc := fun a b => Nat.decLe a.upload_time b.upload_time

/-- The sort order of line 129: `sort(key=lambda x: x.upload_time, reverse=True)`,
stable descending by upload_time. -/
def byTimeDesc (a b : ImageMetadata) : Prop :=
  b.upload_time ≤ a.upload_time

instance : DecidableRel byTimeDesc := fun a b => Nat.decLe b.upload_time a.upload_time

/-- One iteration of the eviction loop, lines 116-121:
`try: os.remove(old_img.file_path); image_metadata.remove(old_img)
 except FileNotFoundError: pass`.
If the blob is present, both the blob and the first ledger record equal to
`old_img` are removed; if the blob is absent, `os.remove` raises
`FileNotFoundError` before `image_metadata.remove` runs, and the handler
swallows the exception, so nothing at all is removed. -/
def evictStep (s : St) (old_img : ImageMetadata) : St :=
  if old_img.filename ∈ s.uploads then
    { uploads := s.uploads.erase old_img.filename
      image_metadata := s.image_metadata.erase old_img
      device_status := s.device_status }
  else s

/-- Lines 87-123, `upload_image`: write the blob, append the metadata record,
then enforce the per-device cap: if the device now has more than 20 records,
sort them ascending by `upload_time` and run the eviction loop over
`device_images[:-20]`, i.e. all but the newest 20. -/
def upload_image (device_id ts : String) (t : Nat) (s : St) : St :=
  let filename := mkFilename device_id ts
  let uploads1 := insert filename s.uploads
  let metadata : ImageMetadata := ⟨device_id, filename, t⟩
  let ledger1 := s.image_metadata ++ [metadata]
  let device_images := ledger1.filter (fun img => img.device_id == device_id)
  if 20 < device_images.length then
    let sorted := List.insertionSort byTimeAsc device_images
    (sorted.take (sorted.length - 20)).foldl evictStep
      ⟨uploads1, ledger1, s.device_status⟩
  else ⟨uploads1, ledger1, s.device_status⟩

/-- Lines 71-85, `get_devices`: collect the ids of entries that are
`"offline"` with `last_seen` strictly older than `now - 5 minutes` (300
seconds), delete those keys from the dict, and return the remainder. -/
def get_devices (now : Int) (reg : List (String × DeviceInfo)) :
    List (String × DeviceInfo) :=
  let cutoff_time := now - 300
  let devices_to_remove :=
    (reg.filter (fun e => e.2.stat == "offline" && decide (e.2.last_seen < cutoff_time))).map
      (fun e => e.1)
  reg.filter (fun e => !(devices_to_remove.contains e.1))

/-- Python slicing `l[:limit]` (line 133): for a nonnegative stop it is the
first `limit` elements; for a negative stop it is the first
`max(0, len(l) + limit)` elements. -/
def pySlice (limit : Int) (l : List α) : List α :=
  if 0 ≤ limit then l.take limit.toNat else l.take ((l.length : Int) + limit).toNat

/-- Lines 125-140, `get_device_images`: filter the ledger by device, sort
most-recent-first (stable), and return the slice `[:limit]`.  (The route then
renders each record as filename/upload_time/url; we return the records.) -/
def get_device_images (device_id : String) (limit : Int)
    (ledger : List ImageMetadata) : List ImageMetadata :=
  let device_images := ledger.filter (fun img => img.device_id == device_id)
  pySlice limit (List.insertionSort byTimeDesc device_images)

/-- Python `max(xs, key=...)` starting from current candidate `c`: replaces the
candidate only when the new key is strictly greater, so the first maximum wins. -/
def pyMax (c : ImageMetadata) : List ImageMetadata → ImageMetadata
  | [] => c
  | x :: xs => pyMax (if c.upload_time < x.upload_time then x else c) xs

/-- Lines 142-154, `get_latest_image`: `none` models the 404 raised when the
device has no records; otherwise `max(device_images, key=lambda x: x.upload_time)`.
The source performs no mutation here, so it embeds as a pure query. -/
def get_latest_image (device_id : String) (ledger : List ImageMetadata) :
    Option ImageMetadata :=
  match ledger.filter (fun img => img.device_id == device_id) with
  | [] => none
  | x :: xs => some (pyMax x xs)

/-- Python `s.startswith(pre)` (line 169): `pre` is a character-wise prefix
of `s`. -/
def pyStartswith (s pre : String) : Bool :=
  pre.data.isPrefixOf s.data

/-- Lines 156-176, `cleanup_orphaned`: `orphaned = listdir(UPLOAD_DIR) −
{filenames of this device's ledger records}`; every orphan whose name starts
with `device_id + "-"` is removed and counted.  (The `FileNotFoundError`
branch cannot fire in the sequential model: every name being removed came
from the directory listing.)  Returns `removed_count` and the new state. -/
def cleanup_orphaned (device_id : String) (s : St) : Nat × St :=
  let metadata_files :=
    (s.image_metadata.filter (fun img => img.device_id == device_id)).map
      (fun img => img.filename)
  let removed := s.uploads.filter
    (fun f => f ∉ metadata_files ∧ pyStartswith f (device_id ++ "-") = true)
  (removed.card,
   { uploads := s.uploads \ removed
     image_metadata := s.image_metadata
     device_status := s.device_status })

/-- Line 181: `sum(1 for status in device_status.values() if status["status"] == "online")`. -/
def online_devices (reg : List (String × DeviceInfo)) : Nat :=
  reg.countP (fun e => e.2.stat == "online")

/-- Lines 178-189, `get_system_status`: (online_devices, total_devices,
total_images). -/
def get_system_status (reg : List (String × DeviceInfo))
    (ledger : List ImageMetadata) : Nat × Nat × Nat :=
  (online_devices reg, reg.length, ledger.length)

/-- The state of a freshly started process: empty directory, empty ledger,
empty registry. -/
def emptySt : St := ⟨∅, [], []⟩

/-- Folding a list of `(ts, upload_time)` inputs through `upload_image` for a
fixed device. -/
def runUploads (device_id : String) (l : List (String × Nat)) (s : St) : St :=
  l.foldl (fun s p => upload_image device_id p.1 p.2 s) s

/-- The record that upload `(ts, t)` for `device_id` appends. -/
def mkRec (device_id : String) (p : String × Nat) : ImageMetadata :=
  ⟨device_id, mkFilename device_id p.1, p.2⟩

/-! ## Concrete states used as failing inputs / counterexamples -/

/-- 22 uploads for device `"dev"`: uploads #1 and #2 fall in the same
wall-clock second (identical strftime string `"100"`, so identical filename)
while their `upload_time` reads differ; uploads #3-#22 have fresh filenames.
Upload #2 overwrites upload #1's blob (same key).  At upload #21 the cap
evicts record #1 and deletes the shared blob; at upload #22 the cap selects
record #2, whose blob is now gone, so `os.remove` raises `FileNotFoundError`
and the `except` clause skips `image_metadata.remove` — record #2 survives. -/
def c1Inputs : List (String × Nat) :=
  [("100", 1), ("100", 2), ("103", 3), ("104", 4), ("105", 5), ("106", 6),
   ("107", 7), ("108", 8), ("109", 9), ("110", 10), ("111", 11), ("112", 12),
   ("113", 13), ("114", 14), ("115", 15), ("116", 16), ("117", 17), ("118", 18),
   ("119", 19), ("120", 20), ("121", 21), ("122", 22)]

/-- A state with 20 ledger records for `"dev"` (upload_time 1..20) in which
the oldest record's blob `"dev-1.png"` is absent from the uploads directory
(only the blobs of records 2..20 exist). -/
def c3State : St :=
  ⟨((List.range 19).map (fun i => mkFilename "dev" (toString (i + 2)))).toFinset,
   (List.range 20).map (fun i => ⟨"dev", mkFilename "dev" (toString (i + 1)), i + 1⟩),
   []⟩

set_option maxRecDepth 200000 in
/-- C1: the per-device cap invariant `count(device_id) ≤ 20` FAILS on the
code.  After the 22 uploads of `c1Inputs` (a legal upload sequence: uploads
#1 and #2 merely fall in the same second), the eviction step of the 22nd
upload completes with 21 ledger records for the device: the eviction of
record #2 finds its blob already deleted (upload #21's eviction removed the
shared file), `os.remove` raises `FileNotFoundError`, and the handler skips
the ledger removal.  This contradicts the code's own comment
"Keep only last 20 images per device". -/
theorem c1_cap_violated_after_22_uploads :
    ((runUploads "dev" c1Inputs emptySt).image_metadata.filter
      (fun img => img.device_id == "dev")).length = 21 := by
  decide

/-- C3: FAILS on the code.  In `c3State` the device has 20 records and the
oldest record's blob is missing.  One more upload selects that record for
eviction; the missing-file condition is indeed swallowed (no error), but the
record is NOT removed from the Ledger — `image_metadata.remove` sits after
`os.remove` inside the `try`, so the raised `FileNotFoundError` skips it.
The device ends the eviction step with 21 records, the stale one included. -/
theorem c3_missing_blob_skips_ledger_removal :
    (⟨"dev", mkFilename "dev" "1", 1⟩ : ImageMetadata) ∈
      (upload_image "dev" "21" 21 c3State).image_metadata ∧
    ((upload_image "dev" "21" 21 c3State).image_metadata.filter
      (fun img => img.device_id == "dev")).length = 21 := by
  constructor
  · decide
  · decide

/-- C2 counterexample: the prefix scoping breaks for hyphenated device ids.
Take `dA = "a"` and `dB = "a-1"` (distinct devices).  The blob
`"a-1-7.png" = mkFilename "a-1" "7"` was generated for `dB` and is even the
filename of a current Ledger record of `dB`; yet a reconciliation call scoped
to `dA = "a"` deletes it, because it is not in `"a"`'s metadata and it starts
with `"a-"`. -/
theorem c2_reconciliation_deletes_other_devices_blob :
    mkFilename "a-1" "7" ∉
      (cleanup_orphaned "a"
        ⟨{mkFilename "a-1" "7"}, [⟨"a-1", mkFilename "a-1" "7", 7⟩], []⟩).2.uploads ∧
    "a" ≠ "a-1" := by
  constructor
  · decide
  · decide

/-- C2 (amended): a reconciliation call scoped to `dA` never deletes a blob
whose key does not start with `dA ++ "-"`.  In particular every blob of a
device `dB` whose keys do not carry that prefix (e.g. any `dB` that is not of
the form `dA ++ "-" ++ suffix`) is preserved. -/
theorem c2_amended_scoped_to_prefixed_keys (s : St) (dA k : String)
    (hk : k ∈ s.uploads) (hpre : pyStartswith k (dA ++ "-") = false) :
    k ∈ (cleanup_orphaned dA s).2.uploads := by
  simp only [cleanup_orphaned, Finset.mem_sdiff, Finset.mem_filter]
  refine ⟨hk, ?_⟩
  rintro ⟨-, -, h⟩
  rw [hpre] at h
  exact Bool.false_ne_true h

/-- Witness for the amended C2 at a concrete input. -/
theorem c2_amended_scoped_to_prefixed_keys_witness :
    ("b-1.png" : String) ∈ (⟨{"b-1.png"}, [], []⟩ : St).uploads ∧
    pyStartswith "b-1.png" ("a" ++ "-") = false ∧
    ("b-1.png" : String) ∈ (cleanup_orphaned "a" ⟨{"b-1.png"}, [], []⟩).2.uploads :=
  ⟨by decide, by decide,
    c2_amended_scoped_to_prefixed_keys ⟨{"b-1.png"}, [], []⟩ "a" "b-1.png"
      (by decide) (by decide)⟩

/-- C6: reconciliation is idempotent.  Running `cleanup_orphaned` for the
same device twice in a row with no state change in between removes files only
the first time: the second call reports `removed_count = 0` and returns the
state unchanged. -/
theorem c6_cleanup_orphaned_idempotent (device_id : String) (s : St) :
    (cleanup_orphaned device_id (cleanup_orphaned device_id s).2).1 = 0 ∧
    (cleanup_orphaned device_id (cleanup_orphaned device_id s).2).2 =
      (cleanup_orphaned device_id s).2 := by
  have hempty : ∀ (u : Finset String) (p : String → Prop) [DecidablePred p],
      (u \ u.filter p).filter p = ∅ := by
    intro u p _
    ext x
    simp only [Finset.mem_filter, Finset.mem_sdiff, Finset.not_mem_empty, iff_false]
    rintro ⟨⟨hx, hnot⟩, hp⟩
    exact hnot ⟨hx, hp⟩
  constructor
  · simp only [cleanup_orphaned]
    rw [hempty]
    exact Finset.card_empty
  · simp only [cleanup_orphaned]
    rw [hempty, Finset.sdiff_empty]

/-! ## Device registry claims (C5, C8) -/

/-- The survival predicate of the expiry sweep: an entry is kept unless its
status is `"offline"` and its `last_seen` is strictly older than `now - 300`. -/
def keepDevice (now : Int) (e : String × DeviceInfo) : Bool :=
  !(e.2.stat == "offline" && decide (e.2.last_seen < now - 300))

/-- When the dict has unique keys (always true of a Python dict), deleting the
collected stale-offline keys is the same as filtering by `keepDevice`. -/
theorem get_devices_eq_filter (now : Int) (reg : List (String × DeviceInfo))
    (hk : (reg.map Prod.fst).Nodup) :
    get_devices now reg = reg.filter (keepDevice now) := by
  unfold get_devices keepDevice
  apply List.filter_congr
  intro e he
  congr 1
  rcases hq : (e.2.stat == "offline" && decide (e.2.last_seen < now - 300)) with _ | _
  · -- e survives: its key is not among the removed ids
    have hnot : e.1 ∉ (reg.filter
        (fun f => f.2.stat == "offline" && decide (f.2.last_seen < now - 300))).map
          (fun f => f.1) := by
      intro hmem
      obtain ⟨f, hf, hf1⟩ := List.mem_map.mp hmem
      obtain ⟨hfreg, hfq⟩ := List.mem_filter.mp hf
      have : f = e := List.inj_on_of_nodup_map hk hfreg he hf1
      rw [this] at hfq
      rw [hq] at hfq
      exact Bool.false_ne_true hfq
    simp [List.elem_eq_mem, hnot]
  · -- e is stale offline: its key is among the removed ids
    have hmem : e.1 ∈ (reg.filter
        (fun f => f.2.stat == "offline" && decide (f.2.last_seen < now - 300))).map
          (fun f => f.1) :=
      List.mem_map.mpr ⟨e, List.mem_filter.mpr ⟨he, hq⟩, rfl⟩
    simp [List.elem_eq_mem, hmem]

/-- C5: the `devices()` sweep removes exactly the entries with status
`"offline"` and `last_seen` older than the 5-minute threshold and returns the
remainder; in particular an `"offline"` entry with `last_seen = now − 360`
(6 minutes ago) is absent from the result, while an `"online"` entry with the
same `last_seen` is still present.  (Key uniqueness — automatic for a Python
dict — is a hypothesis of the association-list embedding.) -/
theorem c5_devices_sweep (now : Int) (reg : List (String × DeviceInfo))
    (hk : (reg.map Prod.fst).Nodup) :
    get_devices now reg = reg.filter (keepDevice now) ∧
    (∀ id info, info.stat = "offline" → info.last_seen = now - 360 →
      (id, info) ∉ get_devices now reg) ∧
    (∀ id info, info.stat = "online" → (id, info) ∈ reg →
      (id, info) ∈ get_devices now reg) := by
  refine ⟨get_devices_eq_filter now reg hk, ?_, ?_⟩
  · intro id info hstat hseen hmem
    rw [get_devices_eq_filter now reg hk] at hmem
    have hkeep := (List.mem_filter.mp hmem).2
    unfold keepDevice at hkeep
    rw [Bool.not_eq_true', Bool.and_eq_false_iff] at hkeep
    rcases hkeep with h | h
    · rw [hstat] at h
      exact absurd h (by decide)
    · rw [decide_eq_false_iff_not] at h
      apply h
      rw [hseen]
      omega
  · intro id info hstat hmem
    rw [get_devices_eq_filter now reg hk]
    refine List.mem_filter.mpr ⟨hmem, ?_⟩
    unfold keepDevice
    rw [Bool.not_eq_true']
    rw [Bool.and_eq_false_iff]
    left
    rw [hstat]
    decide

/-- Witness for C5 at a concrete registry: `now = 1000`, one stale offline
device and one online device both last seen 6 minutes ago. -/
theorem c5_devices_sweep_witness :
    ((([("x", ⟨"offline", 640⟩), ("y", ⟨"online", 640⟩)] :
        List (String × DeviceInfo)).map Prod.fst).Nodup) ∧
    (("x", (⟨"offline", 640⟩ : DeviceInfo)) ∉
      get_devices 1000 [("x", ⟨"offline", 640⟩), ("y", ⟨"online", 640⟩)]) ∧
    (("y", (⟨"online", 640⟩ : DeviceInfo)) ∈
      get_devices 1000 [("x", ⟨"offline", 640⟩), ("y", ⟨"online", 640⟩)]) :=
  ⟨by decide,
   (c5_devices_sweep 1000 [("x", ⟨"offline", 640⟩), ("y", ⟨"online", 640⟩)]
      (by decide)).2.1 "x" ⟨"offline", 640⟩ rfl (by decide),
   (c5_devices_sweep 1000 [("x", ⟨"offline", 640⟩), ("y", ⟨"online", 640⟩)]
      (by decide)).2.2 "y" ⟨"online", 640⟩ rfl (by decide)⟩

/-- C8: `count_online` counts the `"online"` entries of the registry as it
stands, and that equals the number of `"online"` entries that would survive an
expiry sweep run at the same instant, because the sweep only ever removes
`"offline"` entries. -/
theorem c8_online_count_sweep_invariant (now : Int)
    (reg : List (String × DeviceInfo)) (hk : (reg.map Prod.fst).Nodup) :
    online_devices reg = online_devices (get_devices now reg) := by
  rw [get_devices_eq_filter now reg hk]
  unfold online_devices
  rw [List.countP_filter]
  apply List.countP_congr
  intro e _
  constructor
  · intro h
    rw [Bool.and_eq_true]
    refine ⟨h, ?_⟩
    rw [beq_iff_eq] at h
    unfold keepDevice
    rw [Bool.not_eq_true', Bool.and_eq_false_iff]
    left
    rw [h]
    decide
  · intro h
    rw [Bool.and_eq_true] at h
    exact h.1

/-- Witness for C8 at a concrete registry. -/
theorem c8_online_count_sweep_invariant_witness :
    ((([("x", ⟨"offline", 100⟩), ("y", ⟨"online", 100⟩), ("z", ⟨"online", 990⟩)] :
        List (String × DeviceInfo)).map Prod.fst).Nodup) ∧
    online_devices
        [("x", ⟨"offline", 100⟩), ("y", ⟨"online", 100⟩), ("z", ⟨"online", 990⟩)] =
      online_devices (get_devices 1000
        [("x", ⟨"offline", 100⟩), ("y", ⟨"online", 100⟩), ("z", ⟨"online", 990⟩)]) :=
  ⟨by decide,
   c8_online_count_sweep_invariant 1000
     [("x", ⟨"offline", 100⟩), ("y", ⟨"online", 100⟩), ("z", ⟨"online", 990⟩)]
     (by decide)⟩

/-! ## Latest-image claim (C7) -/

/-- Python `max` starting from candidate `c`: the result is `c` or a list
element, it is an upper bound of `c`, and an upper bound of the list. -/
theorem pyMax_spec : ∀ (l : List ImageMetadata) (c : ImageMetadata),
    (pyMax c l = c ∨ pyMax c l ∈ l) ∧
    c.upload_time ≤ (pyMax c l).upload_time ∧
    ∀ x ∈ l, x.upload_time ≤ (pyMax c l).upload_time := by
  intro l
  induction l with
  | nil => intro c; exact ⟨Or.inl rfl, Nat.le_refl _, by intro x hx; cases hx⟩
  | cons x xs ih =>
    intro c
    simp only [pyMax]
    by_cases hcx : c.upload_time < x.upload_time
    · rw [if_pos hcx]
      obtain ⟨hmem, hub, hall⟩ := ih x
      refine ⟨?_, ?_, ?_⟩
      · rcases hmem with h | h
        · exact Or.inr (by rw [h]; exact List.mem_cons_self x xs)
        · exact Or.inr (List.mem_cons_of_mem x h)
      · exact Nat.le_trans (Nat.le_of_lt hcx) hub
      · intro y hy
        rcases List.mem_cons.mp hy with rfl | hyxs
        · exact hub
        · exact hall y hyxs
    · rw [if_neg hcx]
      obtain ⟨hmem, hub, hall⟩ := ih c
      refine ⟨?_, hub, ?_⟩
      · rcases hmem with h | h
        · exact Or.inl h
        · exact Or.inr (List.mem_cons_of_mem x h)
      · intro y hy
        rcases List.mem_cons.mp hy with rfl | hyxs
        · exact Nat.le_trans (Nat.le_of_not_lt hcx) hub
        · exact hall y hyxs

/-- C7: `latest(device_id)` fails with NotFound (embedded as `none`) exactly
when the device has zero records; otherwise it returns a record of that
device, present in the ledger, whose `upload_time` is maximal among the
device's records — in whatever order the ledger holds them.  The source
mutates nothing here, so the query is embedded as a pure function of the
ledger. -/
theorem c7_latest_image (device_id : String) (ledger : List ImageMetadata) :
    (get_latest_image device_id ledger = none ↔
      ledger.filter (fun img => img.device_id == device_id) = []) ∧
    (∀ r, get_latest_image device_id ledger = some r →
      r ∈ ledger ∧ r.device_id = device_id ∧
      ∀ x ∈ ledger, x.device_id = device_id → x.upload_time ≤ r.upload_time) := by
  rcases hf : ledger.filter (fun img => img.device_id == device_id) with _ | ⟨x, xs⟩
  · have hnone : get_latest_image device_id ledger = none := by
      unfold get_latest_image
      rw [hf]
    refine ⟨⟨fun _ => hf, fun _ => hnone⟩, ?_⟩
    intro r hr
    rw [hnone] at hr
    cases hr
  · have hsome : get_latest_image device_id ledger = some (pyMax x xs) := by
      unfold get_latest_image
      rw [hf]
    constructor
    · constructor
      · intro h
        rw [hsome] at h
        cases h
      · intro h
        rw [h] at hf
        cases hf
    · intro r hr
      rw [hsome] at hr
      have hrval : r = pyMax x xs := by
        injection hr with h
        exact h.symm
      obtain ⟨hmem, hub, hall⟩ := pyMax_spec xs x
      have hrfilter : r ∈ ledger.filter (fun img => img.device_id == device_id) := by
        rw [hf, hrval]
        rcases hmem with h | h
        · rw [h]
          exact List.mem_cons_self x xs
        · exact List.mem_cons_of_mem x h
      obtain ⟨hrledger, hrdev⟩ := List.mem_filter.mp hrfilter
      refine ⟨hrledger, beq_iff_eq.mp hrdev, ?_⟩
      intro y hy hydev
      have hyfilter : y ∈ ledger.filter (fun img => img.device_id == device_id) :=
        List.mem_filter.mpr ⟨hy, beq_iff_eq.mpr hydev⟩
      rw [hf] at hyfilter
      rw [hrval]
      rcases List.mem_cons.mp hyfilter with rfl | hyxs
      · exact hub
      · exact hall y hyxs

/-- Witness for C7: three records with times 1 < 2 < 3 inserted out of order;
`latest` returns the time-3 record, which is maximal. -/
theorem c7_latest_image_witness :
    get_latest_image "d"
        [⟨"d", "d-1.png", 1⟩, ⟨"d", "d-3.png", 3⟩, ⟨"d", "d-2.png", 2⟩] =
      some ⟨"d", "d-3.png", 3⟩ ∧
    ((⟨"d", "d-3.png", 3⟩ : ImageMetadata) ∈
        ([⟨"d", "d-1.png", 1⟩, ⟨"d", "d-3.png", 3⟩, ⟨"d", "d-2.png", 2⟩] :
          List ImageMetadata) ∧
      (⟨"d", "d-3.png", 3⟩ : ImageMetadata).device_id = "d" ∧
      ∀ x ∈ ([⟨"d", "d-1.png", 1⟩, ⟨"d", "d-3.png", 3⟩, ⟨"d", "d-2.png", 2⟩] :
          List ImageMetadata), x.device_id = "d" →
        x.upload_time ≤ (⟨"d", "d-3.png", 3⟩ : ImageMetadata).upload_time) :=
  ⟨by decide,
   (c7_latest_image "d"
      [⟨"d", "d-1.png", 1⟩, ⟨"d", "d-3.png", 3⟩, ⟨"d", "d-2.png", 2⟩]).2
     ⟨"d", "d-3.png", 3⟩ (by decide)⟩

/-! ## Negative-limit listing claim (C10) -/

/-- C10: `get_device_images` with a negative `limit` does not fail and does
not truncate to 20: after the stable most-recent-first sort it returns all of
the device's records except the `|limit|` oldest (the last `|limit|` of the
sorted list), exactly Python's `l[:limit]` semantics for a negative stop; and
with `limit = 0` it returns the empty list. -/
theorem c10_negative_limit (device_id : String) (ledger : List ImageMetadata)
    (limit : Int) (hneg : limit < 0) :
    get_device_images device_id limit ledger =
      (List.insertionSort byTimeDesc
          (ledger.filter (fun img => img.device_id == device_id))).take
        ((ledger.filter (fun img => img.device_id == device_id)).length -
          (-limit).toNat) ∧
    get_device_images device_id 0 ledger = [] := by
  constructor
  · unfold get_device_images pySlice
    rw [if_neg (not_le.mpr hneg)]
    congr 1
    rw [List.length_insertionSort]
    omega
  · unfold get_device_images pySlice
    rw [if_pos (le_refl (0 : Int))]
    rfl

/-- Witness for C10 at a concrete ledger and `limit = -2`: of the three
records of device `"d"`, sorted newest-first, only the newest survives. -/
theorem c10_negative_limit_witness :
    (-2 : Int) < 0 ∧
    (get_device_images "d" (-2)
        [⟨"d", "d-1.png", 1⟩, ⟨"d", "d-3.png", 3⟩, ⟨"d", "d-2.png", 2⟩] =
      (List.insertionSort byTimeDesc
          (([⟨"d", "d-1.png", 1⟩, ⟨"d", "d-3.png", 3⟩, ⟨"d", "d-2.png", 2⟩] :
              List ImageMetadata).filter (fun img => img.device_id == "d"))).take
        ((([⟨"d", "d-1.png", 1⟩, ⟨"d", "d-3.png", 3⟩, ⟨"d", "d-2.png", 2⟩] :
            List ImageMetadata).filter (fun img => img.device_id == "d")).length -
          ((-(-2 : Int)).toNat)) ∧
      get_device_images "d" 0
        [⟨"d", "d-1.png", 1⟩, ⟨"d", "d-3.png", 3⟩, ⟨"d", "d-2.png", 2⟩] = []) :=
  ⟨by decide,
   c10_negative_limit "d"
     [⟨"d", "d-1.png", 1⟩, ⟨"d", "d-3.png", 3⟩, ⟨"d", "d-2.png", 2⟩] (-2)
     (by decide)⟩

/-! ## Oldest-first eviction claim (C4) -/

/-- The set of blob keys written by a sequence of uploads for one device. -/
def uploadKeys (device_id : String) (l : List (String × Nat))
    (init : Finset String) : Finset String :=
  l.foldl (fun fs p => insert (mkFilename device_id p.1) fs) init

theorem uploadKeys_subset (device_id : String) :
    ∀ (l : List (String × Nat)) (init : Finset String),
      init ⊆ uploadKeys device_id l init := by
  intro l
  induction l with
  | nil => intro init; exact Finset.Subset.refl init
  | cons q rest ih =>
    intro init
    exact Finset.Subset.trans (Finset.subset_insert _ init) (ih _)

theorem mem_uploadKeys (device_id : String) :
    ∀ (l : List (String × Nat)) (init : Finset String) (p : String × Nat),
      p ∈ l → mkFilename device_id p.1 ∈ uploadKeys device_id l init := by
  intro l
  induction l with
  | nil => intro _ p hp; cases hp
  | cons q rest ih =>
    intro init p hp
    rcases List.mem_cons.mp hp with rfl | hrest
    · exact uploadKeys_subset device_id rest _ (Finset.mem_insert_self _ _)
    · exact ih _ p hrest

/-- Appending the fresh record and filtering by the device: the fresh record
always passes the filter. -/
theorem filter_append_own (device_id : String) (l : List ImageMetadata)
    (m : ImageMetadata) (hm : m.device_id = device_id) :
    (l ++ [m]).filter (fun img => img.device_id == device_id) =
      l.filter (fun img => img.device_id == device_id) ++ [m] := by
  rw [List.filter_append]
  congr 1
  simp [hm]

/-- A below-cap upload does not evict: it inserts the blob and appends the
record. -/
theorem upload_image_below_cap (device_id ts : String) (t : Nat) (s : St)
    (h : (s.image_metadata.filter (fun img => img.device_id == device_id)).length < 20) :
    upload_image device_id ts t s =
      ⟨insert (mkFilename device_id ts) s.uploads,
       s.image_metadata ++ [⟨device_id, mkFilename device_id ts, t⟩],
       s.device_status⟩ := by
  have hc : ¬ 20 < ((s.image_metadata ++
      [(⟨device_id, mkFilename device_id ts, t⟩ : ImageMetadata)]).filter
        (fun img => img.device_id == device_id)).length := by
    rw [filter_append_own device_id _ _ rfl, List.length_append]
    simp only [List.length_singleton]
    omega
  simp only [upload_image]
  rw [if_neg hc]

theorem filter_map_mkRec (device_id : String) (l : List (String × Nat)) :
    (l.map (mkRec device_id)).filter (fun img => img.device_id == device_id) =
      l.map (mkRec device_id) := by
  apply List.filter_eq_self.mpr
  intro a ha
  obtain ⟨p, hp, rfl⟩ := List.mem_map.mp ha
  simp [mkRec]

/-- Up to 20 uploads into a fresh state never trigger eviction: the ledger is
exactly the appended records and the store is exactly the written keys. -/
theorem runUploads_below_cap (device_id : String) :
    ∀ (l : List (String × Nat)), l.length ≤ 20 →
      runUploads device_id l emptySt =
        ⟨uploadKeys device_id l ∅, l.map (mkRec device_id), []⟩ := by
  intro l
  induction l using List.reverseRecOn with
  | nil => intro _; rfl
  | append_singleton l p ih =>
    intro hlen
    rw [List.length_append, List.length_singleton] at hlen
    have hl : l.length ≤ 20 := by omega
    have hfoldl : runUploads device_id (l ++ [p]) emptySt =
        upload_image device_id p.1 p.2 (runUploads device_id l emptySt) := by
      unfold runUploads
      rw [List.foldl_append]
      rfl
    rw [hfoldl, ih hl]
    rw [upload_image_below_cap]
    · simp only [St.mk.injEq]
      refine ⟨?_, ?_, trivial⟩
      · unfold uploadKeys
        rw [List.foldl_append]
        rfl
      · rw [List.map_append]
        rfl
    · rw [filter_map_mkRec, List.length_map]
      omega

/-- C4: 21 sequential uploads for one device into a fresh state, with
strictly increasing `upload_time` and no other operation interleaved: after
the 21st upload's eviction step the ledger holds exactly uploads #2-#21 (in
order), and the blob of upload #1 is gone from the store.  (The filename
timestamps `p.1` are unconstrained: even if upload #1 shares a second — hence
a filename — with a later upload, its record is evicted and the shared key
deleted.) -/
theorem c4_oldest_first_eviction (device_id : String) (p1 : String × Nat)
    (rest : List (String × Nat)) (hlen : rest.length = 20)
    (hinc : List.Pairwise (fun a b => a < b) ((p1 :: rest).map Prod.snd)) :
    (runUploads device_id (p1 :: rest) emptySt).image_metadata =
      rest.map (mkRec device_id) ∧
    mkFilename device_id p1.1 ∉ (runUploads device_id (p1 :: rest) emptySt).uploads := by
  -- split the last upload off
  rcases List.eq_nil_or_concat rest with rfl | ⟨front, plast, hrest⟩
  · cases hlen
  subst hrest
  rw [List.concat_eq_append] at hlen ⊢
  rw [List.concat_eq_append] at hinc
  have hfrontlen : front.length = 19 := by
    rw [List.length_append, List.length_singleton] at hlen
    omega
  -- state after the first 20 uploads
  have hL : (p1 :: front).length ≤ 20 := by
    rw [List.length_cons, hfrontlen]
  have hbuild := runUploads_below_cap device_id (p1 :: front) hL
  have hsplit : runUploads device_id (p1 :: (front ++ [plast])) emptySt =
      upload_image device_id plast.1 plast.2
        (runUploads device_id (p1 :: front) emptySt) := by
    unfold runUploads
    rw [show p1 :: (front ++ [plast]) = (p1 :: front) ++ [plast] from rfl]
    rw [List.foldl_append]
    rfl
  rw [hsplit, hbuild]
  -- the 21st upload
  have hledger1 : (p1 :: front).map (mkRec device_id) ++
      [(⟨device_id, mkFilename device_id plast.1, plast.2⟩ : ImageMetadata)] =
      (p1 :: (front ++ [plast])).map (mkRec device_id) := by
    rw [show p1 :: (front ++ [plast]) = (p1 :: front) ++ [plast] from rfl]
    rw [List.map_append]
    rfl
  have hfull := filter_map_mkRec device_id (p1 :: (front ++ [plast]))
  have hlen21 : ((p1 :: (front ++ [plast])).map (mkRec device_id)).length = 21 := by
    rw [List.length_map, List.length_cons, List.length_append,
      List.length_singleton, hfrontlen]
  have hsorted : List.Sorted byTimeAsc
      ((p1 :: (front ++ [plast])).map (mkRec device_id)) := by
    have h1 : List.Pairwise (fun a b : String × Nat => a.2 < b.2)
        (p1 :: (front ++ [plast])) := List.pairwise_map.mp hinc
    have h2 : List.Pairwise (fun a b : String × Nat =>
        byTimeAsc (mkRec device_id a) (mkRec device_id b))
        (p1 :: (front ++ [plast])) :=
      h1.imp (fun h => Nat.le_of_lt h)
    exact List.pairwise_map.mpr h2
  -- evaluate upload_image in the eviction branch
  simp only [upload_image]
  rw [hledger1, hfull]
  rw [if_pos (by rw [hlen21]; omega)]
  rw [hsorted.insertionSort_eq, hlen21]
  -- the eviction list is exactly the oldest record
  have htake : ((p1 :: (front ++ [plast])).map (mkRec device_id)).take (21 - 20) =
      [mkRec device_id p1] := by
    rw [List.map_cons]
    rfl
  rw [htake]
  -- one eviction step; the blob is present, so record and blob both go
  have hkey : (mkRec device_id p1).filename ∈
      insert (mkFilename device_id plast.1) (uploadKeys device_id (p1 :: front) ∅) :=
    Finset.mem_insert_of_mem
      (mem_uploadKeys device_id (p1 :: front) ∅ p1 (List.mem_cons_self p1 front))
  simp only [List.foldl_cons, List.foldl_nil]
  unfold evictStep
  rw [if_pos hkey]
  constructor
  · show ((p1 :: (front ++ [plast])).map (mkRec device_id)).erase
        (mkRec device_id p1) = (front ++ [plast]).map (mkRec device_id)
    rw [List.map_cons]
    exact List.erase_cons_head _ _
  · exact Finset.not_mem_erase _ _

/-- The inputs of uploads #2..#21 of the C4 witness: distinct seconds,
strictly increasing upload times. -/
def c4Rest : List (String × Nat) :=
  [("2", 2), ("3", 3), ("4", 4), ("5", 5), ("6", 6), ("7", 7), ("8", 8),
   ("9", 9), ("10", 10), ("11", 11), ("12", 12), ("13", 13), ("14", 14),
   ("15", 15), ("16", 16), ("17", 17), ("18", 18), ("19", 19), ("20", 20),
   ("21", 21)]

/-- Witness for C4 at 21 concrete uploads. -/
theorem c4_oldest_first_eviction_witness :
    c4Rest.length = 20 ∧
    List.Pairwise (fun a b => a < b) ((("1", 1) :: c4Rest).map Prod.snd) ∧
    ((runUploads "dev" (("1", 1) :: c4Rest) emptySt).image_metadata =
        c4Rest.map (mkRec "dev") ∧
      mkFilename "dev" ("1", 1).1 ∉
        (runUploads "dev" (("1", 1) :: c4Rest) emptySt).uploads) :=
  ⟨by decide, by decide,
   c4_oldest_first_eviction "dev" ("1", 1) c4Rest (by decide) (by decide)⟩

/-! ## Upload frame property (C9) -/

/-- No hyphen among the characters: true of every strftime
`"%Y%m%d_%H%M%S"` output (digits and underscore only). -/
def hyphenFree (s : String) : Prop := ('-' : Char) ∉ s.data

instance (s : String) : Decidable (hyphenFree s) := by
  unfold hyphenFree
  infer_instance

theorem split_at_first_hyphen :
    ∀ (u v p q : List Char), '-' ∉ u → '-' ∉ v →
      u ++ '-' :: p = v ++ '-' :: q → u = v ∧ p = q := by
  intro u
  induction u with
  | nil =>
    intro v p q _ hv h
    cases v with
    | nil =>
      simp only [List.nil_append] at h
      exact ⟨rfl, (List.cons.injEq _ _ _ _ ▸ h).2⟩
    | cons c v' =>
      simp only [List.nil_append, List.cons_append] at h
      have : c = '-' := (List.cons.injEq _ _ _ _ ▸ h).1.symm
      exact absurd (this ▸ List.mem_cons_self c v') hv
  | cons c u' ih =>
    intro v p q hu hv h
    cases v with
    | nil =>
      simp only [List.cons_append, List.nil_append] at h
      have : c = '-' := (List.cons.injEq _ _ _ _ ▸ h).1
      exact absurd (this ▸ List.mem_cons_self c u') hu
    | cons d v' =>
      simp only [List.cons_append] at h
      have hcd : c = d := (List.cons.injEq _ _ _ _ ▸ h).1
      have htail : u' ++ '-' :: p = v' ++ '-' :: q := (List.cons.injEq _ _ _ _ ▸ h).2
      have hu' : '-' ∉ u' := fun hm => hu (List.mem_cons_of_mem c hm)
      have hv' : '-' ∉ v' := fun hm => hv (List.mem_cons_of_mem d hm)
      obtain ⟨h1, h2⟩ := ih v' p q hu' hv' htail
      exact ⟨by rw [hcd, h1], h2⟩

theorem split_at_last_hyphen (a b x y : List Char)
    (hx : '-' ∉ x) (hy : '-' ∉ y)
    (h : a ++ '-' :: x = b ++ '-' :: y) : a = b ∧ x = y := by
  have hrev : x.reverse ++ '-' :: a.reverse = y.reverse ++ '-' :: b.reverse := by
    have := congrArg List.reverse h
    simpa [List.reverse_append] using this
  have hx' : '-' ∉ x.reverse := fun hm => hx (List.mem_reverse.mp hm)
  have hy' : '-' ∉ y.reverse := fun hm => hy (List.mem_reverse.mp hm)
  obtain ⟨h1, h2⟩ := split_at_first_hyphen x.reverse y.reverse a.reverse b.reverse hx' hy' hrev
  exact ⟨List.reverse_injective h2, List.reverse_injective h1⟩

theorem mkFilename_data (d ts : String) :
    (mkFilename d ts).data = d.data ++ '-' :: (ts.data ++ ['.', 'p', 'n', 'g']) := by
  unfold mkFilename
  rw [String.data_append, String.data_append, String.data_append]
  simp

/-- Two derived filenames with hyphen-free timestamp parts agree only if the
device parts agree: the device id of a key can be read off as everything
before the last hyphen. -/
theorem mkFilename_inj_device (d1 s1 d2 s2 : String)
    (h1 : hyphenFree s1) (h2 : hyphenFree s2)
    (heq : mkFilename d1 s1 = mkFilename d2 s2) : d1 = d2 := by
  have hdata := congrArg String.data heq
  rw [mkFilename_data, mkFilename_data] at hdata
  have hx : '-' ∉ s1.data ++ ['.', 'p', 'n', 'g'] := by
    intro hm
    rcases List.mem_append.mp hm with hm | hm
    · exact h1 hm
    · simp at hm
  have hy : '-' ∉ s2.data ++ ['.', 'p', 'n', 'g'] := by
    intro hm
    rcases List.mem_append.mp hm with hm | hm
    · exact h2 hm
    · simp at hm
  exact String.ext (split_at_last_hyphen _ _ _ _ hx hy hdata).1

/-- `k` is a blob key of device `d`: derived from `d` and some hyphen-free
timestamp string. -/
def ownsKey (d k : String) : Prop :=
  ∃ m, hyphenFree m ∧ k = mkFilename d m

theorem filter_erase_of_not_pred (p : ImageMetadata → Bool)
    (a : ImageMetadata) (ha : p a = false) :
    ∀ (l : List ImageMetadata), (l.erase a).filter p = l.filter p := by
  intro l
  induction l with
  | nil => rfl
  | cons x xs ih =>
    rw [List.erase_cons]
    rcases hxa : (x == a) with _ | _
    · rw [if_neg (by simp)]
      rw [List.filter_cons, List.filter_cons]
      rcases hpx : p x with _ | _ <;> simp [hpx, ih]
    · rw [if_pos rfl]
      have hx : x = a := by simpa using hxa
      rw [List.filter_cons, hx, ha]
      simp

theorem evictStep_device_status (s : St) (r : ImageMetadata) :
    (evictStep s r).device_status = s.device_status := by
  unfold evictStep
  split <;> rfl

theorem foldl_evict_device_status :
    ∀ (l : List ImageMetadata) (s : St),
      (l.foldl evictStep s).device_status = s.device_status := by
  intro l
  induction l with
  | nil => intro s; rfl
  | cons x xs ih =>
    intro s
    rw [List.foldl_cons, ih, evictStep_device_status]

theorem evictStep_filter_other (d2 : String) (s : St) (r : ImageMetadata)
    (hr : r.device_id ≠ d2) :
    (evictStep s r).image_metadata.filter (fun img => img.device_id == d2) =
      s.image_metadata.filter (fun img => img.device_id == d2) := by
  unfold evictStep
  split
  · exact filter_erase_of_not_pred _ r (by simp [hr]) s.image_metadata
  · rfl

theorem foldl_evict_filter_other (d2 : String) :
    ∀ (l : List ImageMetadata) (s : St), (∀ r ∈ l, r.device_id ≠ d2) →
      (l.foldl evictStep s).image_metadata.filter (fun img => img.device_id == d2) =
        s.image_metadata.filter (fun img => img.device_id == d2) := by
  intro l
  induction l with
  | nil => intro s _; rfl
  | cons x xs ih =>
    intro s hall
    rw [List.foldl_cons,
      ih _ (fun r hr => hall r (List.mem_cons_of_mem x hr)),
      evictStep_filter_other d2 s x (hall x (List.mem_cons_self x xs))]

theorem evictStep_uploads_mem (k : String) (s : St) (r : ImageMetadata)
    (hne : r.filename ≠ k) :
    (k ∈ (evictStep s r).uploads ↔ k ∈ s.uploads) := by
  unfold evictStep
  split
  · simp only [Finset.mem_erase]
    constructor
    · exact fun h => h.2
    · exact fun h => ⟨fun hk => hne (hk ▸ rfl), h⟩
  · exact Iff.rfl

theorem foldl_evict_uploads_mem (k : String) :
    ∀ (l : List ImageMetadata) (s : St), (∀ r ∈ l, r.filename ≠ k) →
      (k ∈ (l.foldl evictStep s).uploads ↔ k ∈ s.uploads) := by
  intro l
  induction l with
  | nil => intro s _; exact Iff.rfl
  | cons x xs ih =>
    intro s hall
    rw [List.foldl_cons]
    exact (ih _ (fun r hr => hall r (List.mem_cons_of_mem x hr))).trans
      (evictStep_uploads_mem k s x (hall x (List.mem_cons_self x xs)))

/-- C9: an upload for one device touches only that device's state.  The
device registry is untouched; the other devices' ledger records are
untouched (the eviction loop only ever erases records equal to one of the
uploading device's records); and any blob key derived for another device is
present afterwards iff it was present before.  Hypotheses: the upload's
timestamp string is hyphen-free (true of every strftime output), and the
uploading device's ledger filenames are its own derived keys (true of every
state reachable by uploads, since upload is the only record producer). -/
theorem c9_upload_frame (s : St) (device_id ts : String) (t : Nat)
    (hts : hyphenFree ts)
    (hWF : ∀ r ∈ s.image_metadata, r.device_id = device_id →
      ownsKey device_id r.filename) :
    (upload_image device_id ts t s).device_status = s.device_status ∧
    (∀ d2, d2 ≠ device_id →
      (upload_image device_id ts t s).image_metadata.filter
          (fun img => img.device_id == d2) =
        s.image_metadata.filter (fun img => img.device_id == d2)) ∧
    (∀ d2 m, d2 ≠ device_id → hyphenFree m →
      (mkFilename d2 m ∈ (upload_image device_id ts t s).uploads ↔
        mkFilename d2 m ∈ s.uploads)) := by
  have hfilter_base : ∀ d2, d2 ≠ device_id →
      ((s.image_metadata ++
          [(⟨device_id, mkFilename device_id ts, t⟩ : ImageMetadata)]).filter
        (fun img => img.device_id == d2)) =
      s.image_metadata.filter (fun img => img.device_id == d2) := by
    intro d2 hd2
    rw [List.filter_append]
    have : ((⟨device_id, mkFilename device_id ts, t⟩ :
        ImageMetadata).device_id == d2) = false := by
      simp only [beq_eq_false_iff_ne]
      exact fun h => hd2 h.symm
    simp [this]
  have hmem_base : ∀ d2 m, d2 ≠ device_id → hyphenFree m →
      (mkFilename d2 m ∈ insert (mkFilename device_id ts) s.uploads ↔
        mkFilename d2 m ∈ s.uploads) := by
    intro d2 m hd2 hm
    rw [Finset.mem_insert]
    constructor
    · rintro (heq | h)
      · exact absurd (mkFilename_inj_device d2 m device_id ts hm hts heq) hd2
      · exact h
    · exact fun h => Or.inr h
  by_cases hcap : 20 < ((s.image_metadata ++
      [(⟨device_id, mkFilename device_id ts, t⟩ : ImageMetadata)]).filter
        (fun img => img.device_id == device_id)).length
  · -- eviction branch
    have hto : ∀ r ∈ (List.insertionSort byTimeAsc
        ((s.image_metadata ++
            [(⟨device_id, mkFilename device_id ts, t⟩ : ImageMetadata)]).filter
          (fun img => img.device_id == device_id))).take
        ((List.insertionSort byTimeAsc
          ((s.image_metadata ++
              [(⟨device_id, mkFilename device_id ts, t⟩ : ImageMetadata)]).filter
            (fun img => img.device_id == device_id))).length - 20),
        r.device_id = device_id ∧ ownsKey device_id r.filename := by
      intro r hr
      have hr1 : r ∈ List.insertionSort byTimeAsc
          ((s.image_metadata ++
              [(⟨device_id, mkFilename device_id ts, t⟩ : ImageMetadata)]).filter
            (fun img => img.device_id == device_id)) := List.take_subset _ _ hr
      have hr2 : r ∈ (s.image_metadata ++
          [(⟨device_id, mkFilename device_id ts, t⟩ : ImageMetadata)]).filter
            (fun img => img.device_id == device_id) :=
        (List.mem_insertionSort byTimeAsc).mp hr1
      obtain ⟨hr3, hr4⟩ := List.mem_filter.mp hr2
      have hdev : r.device_id = device_id := by simpa using hr4
      refine ⟨hdev, ?_⟩
      rcases List.mem_append.mp hr3 with h | h
      · exact hWF r h hdev
      · have : r = ⟨device_id, mkFilename device_id ts, t⟩ := by simpa using h
        exact ⟨ts, hts, by rw [this]⟩
    simp only [upload_image]
    rw [if_pos hcap]
    refine ⟨foldl_evict_device_status _ _, ?_, ?_⟩
    · intro d2 hd2
      rw [foldl_evict_filter_other d2 _ _
        (fun r hr => by rw [(hto r hr).1]; exact fun h => hd2 h.symm)]
      exact hfilter_base d2 hd2
    · intro d2 m hd2 hm
      rw [foldl_evict_uploads_mem (mkFilename d2 m) _ _
        (fun r hr => ?_)]
      · exact hmem_base d2 m hd2 hm
      · obtain ⟨m', hm', hfn⟩ := (hto r hr).2
        rw [hfn]
        intro heq
        exact hd2 (mkFilename_inj_device device_id m' d2 m hm' hm heq).symm
  · -- below the cap: no eviction
    simp only [upload_image]
    rw [if_neg hcap]
    exact ⟨rfl, fun d2 hd2 => hfilter_base d2 hd2,
      fun d2 m hd2 hm => hmem_base d2 m hd2 hm⟩

/-- C9 witness state: one record and one blob of device `"b"`, one registry
entry. -/
def c9State : St :=
  ⟨{mkFilename "b" "2"}, [⟨"b", mkFilename "b" "2", 5⟩], [("b", ⟨"online", 0⟩)]⟩

/-- Witness for C9: an upload for `"a"` leaves `"b"`'s record, blob and
registry entry intact. -/
theorem c9_upload_frame_witness :
    hyphenFree "1" ∧
    (∀ r ∈ c9State.image_metadata, r.device_id = "a" → ownsKey "a" r.filename) ∧
    (upload_image "a" "1" 9 c9State).device_status = c9State.device_status ∧
    (upload_image "a" "1" 9 c9State).image_metadata.filter
        (fun img => img.device_id == "b") =
      c9State.image_metadata.filter (fun img => img.device_id == "b") ∧
    (mkFilename "b" "2" ∈ (upload_image "a" "1" 9 c9State).uploads ↔
      mkFilename "b" "2" ∈ c9State.uploads) := by
  have hWF0 : ∀ r ∈ c9State.image_metadata, r.device_id = "a" →
      ownsKey "a" r.filename := by
    intro r hr hdev
    rw [show c9State.image_metadata = [⟨"b", mkFilename "b" "2", 5⟩] from rfl,
      List.mem_singleton] at hr
    rw [hr] at hdev
    exact absurd hdev (by decide)
  have h := c9_upload_frame c9State "a" "1" 9 (by decide) hWF0
  exact ⟨by decide, hWF0, h.1, h.2.1 "b" (by decide), h.2.2 "b" "2" (by decide) (by decide)⟩
